import Mathlib

/-!
Verification of the repocat concatenation tool (src/main.rs).

Strings are embedded as `List Char`.  The glob-matching facility used by
`should_process_file` is the `glob` crate's `Pattern` type with default
match options; it is embedded below (`patternNew`, `patternMatches`).
The filesystem walker, the output stream and the two clone strategies are
modelled by explicit data (`WalkItem`, accumulated output, `RemoteEnv`).
-/

/-- Match options of the glob facility (`glob::MatchOptions`). -/
structure MatchOptions where
  case_sensitive : Bool
  require_literal_separator : Bool
  require_literal_leading_dot : Bool
deriving DecidableEq

/-- `Pattern::matches` uses the default options: case-sensitive, neither
literal-separator nor literal-leading-dot required. -/
def defaultMatchOptions : MatchOptions :=
  ⟨true, false, false⟩

/-- Character specifiers of a `[...]` glob range. -/
inductive CharSpecifier
  | singleChar (c : Char)
  | charRange (startC endC : Char)
deriving DecidableEq, BEq

/-- Tokens of a compiled glob pattern (`glob::Pattern`). -/
inductive PatternToken
  | char (c : Char)
  | anyChar
  | anySequence
  | anyRecursiveSequence
  | anyWithin (specs : List CharSpecifier)
  | anyExcept (specs : List CharSpecifier)
deriving DecidableEq, BEq

/-- Result values of the glob matcher's recursive worker. -/
inductive MatchResult
  | entireMatches
  | subDoesntMatch
  | entireDoesntMatch
deriving DecidableEq

/-- `glob::parse_char_specifiers`: a `x-y` triple becomes a range, any other
character a singleton. -/
def parseCharSpecifiers : List Char → List CharSpecifier
  | [] => []
  | a :: '-' :: b :: rest => CharSpecifier.charRange a b :: parseCharSpecifiers rest
  | a :: rest => CharSpecifier.singleChar a :: parseCharSpecifiers rest

/-- `char::is_ascii` from Rust. -/
def charIsAscii (c : Char) : Bool :=
  decide (c.toNat ≤ 0x7F)

/-- `glob::chars_eq` (non-Windows): optional ASCII case folding. -/
def charsEq (a b : Char) (caseSensitive : Bool) : Bool :=
  if !caseSensitive && charIsAscii a && charIsAscii b then a.toLower == b.toLower
  else a == b

/-- `glob::in_char_specifiers`: membership of a character in a `[...]` range,
including the case-insensitive lowercase-range rule. -/
def inCharSpecifiers (opts : MatchOptions) (specs : List CharSpecifier) (c : Char) : Bool :=
  specs.any fun spec =>
    match spec with
    | CharSpecifier.singleChar sc => sc == c
    | CharSpecifier.charRange startC endC =>
      let insensitive : Bool :=
        if !opts.case_sensitive && charIsAscii c && charIsAscii startC && charIsAscii endC then
          let start := startC.toLower
          let stop := endC.toLower
          let startUp := start.toUpper
          let stopUp := stop.toUpper
          if start != startUp && stop != stopUp then
            let cl := c.toLower
            decide (start ≤ cl) && decide (cl ≤ stop)
          else false
        else false
      insensitive || (decide (startC ≤ c) && decide (c ≤ endC))

/-- The `while let Some(c) = file.next()` loop inside `Pattern::matches_from`
for a sequence token.  `next` is the match continuation on the remaining
tokens; `isRec` tells a `**` token from a `*` token.  When the file is
exhausted the Rust `for` loop proceeds to the remaining tokens, which is
exactly `next` on the empty file. -/
def seqLoop (opts : MatchOptions) (next : Bool → List Char → MatchResult) (isRec : Bool) :
    Bool → List Char → MatchResult
  | fsep, [] => next fsep []
  | fsep, c :: cs =>
    if fsep && opts.require_literal_leading_dot && c == '.' then MatchResult.subDoesntMatch
    else
      let fsep2 := c == '/'
      if isRec && !fsep2 then seqLoop opts next isRec fsep2 cs
      else if !isRec && (opts.require_literal_separator && fsep2) then
        MatchResult.subDoesntMatch
      else
        match next fsep2 cs with
        | MatchResult.subDoesntMatch => seqLoop opts next isRec fsep2 cs
        | m => m

/-- `glob::Pattern::matches_from`: token-directed matching; `fsep` is the
`follows_separator` flag. -/
def matchesFrom (opts : MatchOptions) : List PatternToken → Bool → List Char → MatchResult
  | [], _, file =>
    if file.isEmpty then MatchResult.entireMatches else MatchResult.subDoesntMatch
  | PatternToken.anySequence :: rest, fsep, file =>
    (match matchesFrom opts rest fsep file with
     | MatchResult.subDoesntMatch =>
       seqLoop opts (fun fs f => matchesFrom opts rest fs f) false fsep file
     | m => m)
  | PatternToken.anyRecursiveSequence :: rest, fsep, file =>
    (match matchesFrom opts rest fsep file with
     | MatchResult.subDoesntMatch =>
       seqLoop opts (fun fs f => matchesFrom opts rest fs f) true fsep file
     | m => m)
  | tok :: rest, fsep, file =>
    match file with
    | [] => MatchResult.entireDoesntMatch
    | c :: cs =>
      let isSep := c == '/'
      let ok : Bool :=
        match tok with
        | PatternToken.anyChar =>
          !((opts.require_literal_separator && isSep) ||
            (fsep && opts.require_literal_leading_dot && c == '.'))
        | PatternToken.anyWithin specs =>
          if (opts.require_literal_separator && isSep) ||
              (fsep && opts.require_literal_leading_dot && c == '.') then false
          else inCharSpecifiers opts specs c
        | PatternToken.anyExcept specs =>
          if (opts.require_literal_separator && isSep) ||
              (fsep && opts.require_literal_leading_dot && c == '.') then false
          else !inCharSpecifiers opts specs c
        | PatternToken.char c2 => charsEq c c2 opts.case_sensitive
        | _ => false
      if ok then matchesFrom opts rest isSep cs else MatchResult.subDoesntMatch

/-- `glob::Pattern::matches`: run the matcher from the start of the token
list with `follows_separator = true`, under default options. -/
def patternMatches (tokens : List PatternToken) (file : List Char) : Bool :=
  match matchesFrom defaultMatchOptions tokens true file with
  | MatchResult.entireMatches => true
  | _ => false

/-- Collapse rule of `Pattern::new` when pushing an `AnyRecursiveSequence`
token (the token list here is kept newest-first). -/
def pushRecursive (acc : List PatternToken) : List PatternToken :=
  if acc.length > 1 && acc.headD PatternToken.anyChar == PatternToken.anyRecursiveSequence then
    acc
  else PatternToken.anyRecursiveSequence :: acc

/-- Worker for `glob::Pattern::new`.  `prev` is the character just before the
current position (`None` at the start), `acc` the tokens compiled so far,
newest first.  The fuel argument only bounds the recursion; every step
consumes at least one input character, so fuel equal to the input length
(as supplied by `patternNew`) can never run out. -/
def parseGlobAux : Nat → Option Char → List PatternToken → List Char → Option (List PatternToken)
  | _, _, acc, [] => some acc.reverse
  | 0, _, _, _ :: _ => none
  | fuel + 1, prev, acc, c :: rest =>
    if c == '?' then parseGlobAux fuel (some '?') (PatternToken.anyChar :: acc) rest
    else if c == '*' then
      let stars := rest.takeWhile (fun x => x == '*')
      let count := stars.length + 1
      let rest2 := rest.drop stars.length
      if count > 2 then none
      else if count == 2 then
        let prevOk : Bool := match prev with | none => true | some pc => pc == '/'
        if prevOk then
          match rest2 with
          | '/' :: rest3 => parseGlobAux fuel (some '/') (pushRecursive acc) rest3
          | [] => some (pushRecursive acc).reverse
          | _ => none
        else none
      else parseGlobAux fuel (some '*') (PatternToken.anySequence :: acc) rest
    else if c == '[' then
      if rest.length ≥ 3 && rest.headD ' ' == '!' then
        match (rest.drop 2).findIdx? (fun x => x == ']') with
        | some j =>
          parseGlobAux fuel (some ']')
            (PatternToken.anyExcept (parseCharSpecifiers ((rest.drop 1).take (j + 1))) :: acc)
            (rest.drop (j + 3))
        | none => none
      else if rest.length ≥ 2 && !(rest.headD ' ' == '!') then
        match (rest.drop 1).findIdx? (fun x => x == ']') with
        | some j =>
          parseGlobAux fuel (some ']')
            (PatternToken.anyWithin (parseCharSpecifiers (rest.take (j + 1))) :: acc)
            (rest.drop (j + 2))
        | none => none
      else none
    else parseGlobAux fuel (some c) (PatternToken.char c :: acc) rest

/-- `glob::Pattern::new`: `none` models `Err(PatternError)`. -/
def patternNew (pattern : List Char) : Option (List PatternToken) :=
  parseGlobAux pattern.length none [] pattern

/-- The per-pattern closure inside `should_process_file`:
`Pattern::new(pattern).map(|p| p.matches(&path_str)).unwrap_or(false)`. -/
def globPatternMatch (pattern path : List Char) : Bool :=
  ((patternNew pattern).map (fun tokens => patternMatches tokens path)).getD false

/-- `should_process_file` from src/main.rs: selected iff some include
pattern matches and no exclude pattern matches. -/
def shouldProcessFile (path : List Char) (includePats excludePats : List (List Char)) : Bool :=
  let included := includePats.any fun pattern => globPatternMatch pattern path
  let excluded := excludePats.any fun pattern => globPatternMatch pattern path
  included && !excluded

example : patternNew "*.rs".toList =
    some [PatternToken.anySequence, PatternToken.char '.',
          PatternToken.char 'r', PatternToken.char 's'] := by decide

example : globPatternMatch "*.rs".toList "src/main.rs".toList = true := by decide
example : globPatternMatch "*.rs".toList "src/main.rsx".toList = false := by decide
example : patternNew "[".toList = none := by decide
example : patternNew "***".toList = none := by decide
example : patternNew "a**".toList = none := by decide
example : patternNew "**".toList = some [PatternToken.anyRecursiveSequence] := by decide
example : globPatternMatch "[a-c]x".toList "bx".toList = true := by decide
example : globPatternMatch "[!a-c]x".toList "bx".toList = false := by decide
example : shouldProcessFile "a.rs".toList ["*.rs".toList] ["a.*".toList] = false := by decide
example : shouldProcessFile "a.rs".toList ["*.rs".toList] ["b.*".toList] = true := by decide

/-- `char::is_whitespace` from Rust: the Unicode White_Space code points. -/
def rustIsWhitespace (c : Char) : Bool :=
  let n := c.toNat
  n == 0x09 || n == 0x0A || n == 0x0B || n == 0x0C || n == 0x0D || n == 0x20 ||
  n == 0x85 || n == 0xA0 || n == 0x1680 ||
  (decide (0x2000 ≤ n) && decide (n ≤ 0x200A)) ||
  n == 0x2028 || n == 0x2029 || n == 0x202F || n == 0x205F || n == 0x3000

/-- `str::trim_end`: drop trailing whitespace characters. -/
def trimEnd (s : List Char) : List Char :=
  (s.reverse.dropWhile rustIsWhitespace).reverse

/-- `str::split('\n')`: split on every newline; the result is never empty
and the empty string yields one empty piece. -/
def splitNewline : List Char → List (List Char)
  | [] => [[]]
  | c :: rest =>
    if c == '\n' then [] :: splitNewline rest
    else
      match splitNewline rest with
      | [] => [[c]]
      | l :: ls => (c :: l) :: ls

/-- `Vec::join("\n")` on the processed lines. -/
def joinLines : List (List Char) → List Char
  | [] => []
  | l :: ls =>
    match ls with
    | [] => l
    | _ :: _ => l ++ '\n' :: joinLines ls

/-- The line pipeline of `process_file`: right-trim every line, drop lines
that are empty after trimming, rejoin with single newlines. -/
def normalizeContent (contents : List Char) : List Char :=
  joinLines (((splitNewline contents).map trimEnd).filter (fun s => !s.isEmpty))

/-- `process_file` with the file's bytes already read: the emitted block,
`"*** <path>\n"` followed by the normalized body. -/
def processFileContent (path contents : List Char) : List Char :=
  let processedLines := ((splitNewline contents).map trimEnd).filter (fun s => !s.isEmpty)
  "*** ".toList ++ path ++ '\n' :: joinLines processedLines

/-- One filesystem object yielded by the `ignore` walker: its path, whether
it is a regular file, the outcome of reading it (`none` models a failed
`File::open`/`read_to_string`, whether an I/O error or invalid UTF-8), and
whether `writeln!` into the output file would succeed for it. -/
structure WalkEntry where
  path : List Char
  isFile : Bool
  content : Option (List Char)
  writeOk : Bool
deriving DecidableEq

/-- One item of the walker's stream: either a successful directory entry or
an error value (`Err` from the `ignore` walker, as produced e.g. for a
missing or unreadable root). -/
inductive WalkItem
  | err
  | entry (e : WalkEntry)
deriving DecidableEq

/-- Errors of a run, tagged by the failing operation, mirroring the
`anyhow` contexts of src/main.rs. -/
inductive RunError
  | createFailure
  | walkFailure
  | readFailure (path : List Char)
  | writeFailure (path : List Char)
  | tempDirFailure
  | cloneFailure
deriving DecidableEq

/-- The error taxonomy of the specification (section 7). -/
inductive SpecErrorClass
  | config
  | acquisition
  | inputOutput
  | decode
deriving DecidableEq

/-- Classification of the model's errors under the specification's
taxonomy.  A walker error is raised exactly when the local root does not
exist or is unreadable in the runs modelled here, which the specification
files under `AcquisitionError`. -/
def specClass : RunError → SpecErrorClass
  | RunError.createFailure => SpecErrorClass.inputOutput
  | RunError.walkFailure => SpecErrorClass.acquisition
  | RunError.readFailure _ => SpecErrorClass.inputOutput
  | RunError.writeFailure _ => SpecErrorClass.inputOutput
  | RunError.tempDirFailure => SpecErrorClass.acquisition
  | RunError.cloneFailure => SpecErrorClass.acquisition

/-- The `for result in walker` loop of `process_local_folder`.  Returns the
bytes appended to the output file, the paths printed by `println!` (one per
processed file, in order), and the first error, if any; the loop stops at
the first error (`?`). -/
def processItems (includePats excludePats : List (List Char)) :
    List WalkItem → List Char × List (List Char) × Option RunError
  | [] => ([], [], none)
  | WalkItem.err :: _ => ([], [], some RunError.walkFailure)
  | WalkItem.entry e :: rest =>
    if e.isFile && shouldProcessFile e.path includePats excludePats then
      match e.content with
      | none => ([], [], some (RunError.readFailure e.path))
      | some contents =>
        let data := processFileContent e.path contents
        if e.writeOk then
          let out := processItems includePats excludePats rest
          (data ++ '\n' :: out.1, e.path :: out.2.1, out.2.2)
        else ([], [e.path], some (RunError.writeFailure e.path))
    else processItems includePats excludePats rest

/-- The walker's item stream for a root: a missing or unreadable root makes
the walker yield a single error item. -/
def walkItems : Option (List WalkItem) → List WalkItem
  | none => [WalkItem.err]
  | some items => items

/-- `process_local_folder`: create (truncate) the output file, then stream
the selected files into it.  The first component is the output file's
content on disk afterwards (`none` when the file was never created). -/
def processLocalFolder (createOk : Bool) (root : Option (List WalkItem))
    (includePats excludePats : List (List Char)) :
    Option (List Char) × List (List Char) × Option RunError :=
  if createOk then
    let out := processItems includePats excludePats (walkItems root)
    (some out.1, out.2.1, out.2.2)
  else (none, [], some RunError.createFailure)

/-- Outcomes of the external collaborators used by `process_github_repo`. -/
structure RemoteEnv where
  tempDirOk : Bool
  cliResult : Option Bool
  lib2Ok : Bool
deriving DecidableEq

/-- Observable acquisition attempts, with the depth each clone was asked
for. -/
inductive Event
  | cliClone (depth : Nat)
  | lib2Clone (depth : Nat)
deriving DecidableEq, BEq

/-- `process_github_repo`: create a temp dir, try `git clone --depth 1` as a
subprocess, fall back to the in-process `git2` clone with `depth(1)` when
the subprocess is unavailable (`cliResult = none`) or exits non-zero
(`some false`); when acquisition succeeded, run `process_local_folder` on
the cloned tree (`root`). -/
def processGithubRepo (env : RemoteEnv) (createOk : Bool) (root : Option (List WalkItem))
    (includePats excludePats : List (List Char)) :
    List Event × (Option (List Char) × List (List Char) × Option RunError) :=
  if env.tempDirOk then
    match env.cliResult with
    | some true =>
      ([Event.cliClone 1], processLocalFolder createOk root includePats excludePats)
    | _ =>
      if env.lib2Ok then
        ([Event.cliClone 1, Event.lib2Clone 1],
         processLocalFolder createOk root includePats excludePats)
      else
        ([Event.cliClone 1, Event.lib2Clone 1], (none, [], some RunError.cloneFailure))
  else ([], (none, [], some RunError.tempDirFailure))

/-- The command-line arguments of src/main.rs (clap's `Args`). -/
structure Args where
  input : List Char
  output : List Char
  includePats : Option (List (List Char))
  excludePats : Option (List (List Char))
deriving DecidableEq

/-- The default include pattern list built in `main`. -/
def defaultInclude : List (List Char) :=
  ["*.toml".toList, "*.md".toList, "*.py".toList, "*.rs".toList, "*.cpp".toList,
   "*.h".toList, "*.hpp".toList, "*.c".toList, "*.rst".toList, "*.txt".toList,
   "*.cuh".toList, "*.cu".toList]

/-- The remote-input test of `main`:
`args.input.starts_with("https://github.com")`. -/
def isGithubUrl (input : List Char) : Bool :=
  "https://github.com".toList.isPrefixOf input

/-- `main` after argument parsing: fill in the default include/exclude
lists and dispatch on the input string.  `root` is the directory tree the
run operates on (the local input path, or the clone destination for a
remote input). -/
def runMain (args : Args) (env : RemoteEnv) (createOk : Bool) (root : Option (List WalkItem)) :
    List Event × (Option (List Char) × List (List Char) × Option RunError) :=
  let includePats := args.includePats.getD defaultInclude
  let excludePats := args.excludePats.getD []
  if isGithubUrl args.input then processGithubRepo env createOk root includePats excludePats
  else ([], processLocalFolder createOk root includePats excludePats)

/-- Modelled from the spec: the extension-allowlist selection mode
described in sections 3, 4.2 and 6(b) of the specification is absent from
src/main.rs (`Args` carries only include/exclude pattern lists and
`should_process_file` only evaluates glob patterns).  Following the
specification's words, a path's extension is the part of its last
component after the final dot, and a path is selected iff that extension
is present, by exact case-sensitive string match, in the configured set;
files with no extension are never selected. -/
def extensionAllowlistSelect (allowed : List (List Char)) (path : List Char) : Bool :=
  let lastComponent := (path.reverse.takeWhile (fun c => !(c == '/'))).reverse
  let afterDot := lastComponent.reverse.takeWhile (fun c => !(c == '.'))
  if afterDot.length == lastComponent.length then false
  else allowed.contains afterDot.reverse

example : extensionAllowlistSelect ["rs".toList] "main.rs".toList = true := by decide
example : extensionAllowlistSelect ["rs".toList] "src/main.rs".toList = true := by decide
example : extensionAllowlistSelect ["rs".toList] "Makefile".toList = false := by decide
example : extensionAllowlistSelect ["rs".toList] "main.RS".toList = false := by decide

example : processFileContent "a.py".toList "x\n\n  \ny".toList = "*** a.py\nx\ny".toList := by
  decide

example :
    processItems ["*.py".toList] []
      [WalkItem.entry ⟨"a.py".toList, true, some "x\n\n  \ny".toList, true⟩,
       WalkItem.entry ⟨"b.py".toList, true, some "z".toList, true⟩,
       WalkItem.entry ⟨"c.md".toList, true, some "ignored".toList, true⟩] =
      ("*** a.py\nx\ny\n*** b.py\nz\n".toList, ["a.py".toList, "b.py".toList], none) := by
  decide

lemma globPatternMatch_invalid {p : List Char} (h : patternNew p = none) (path : List Char) :
    globPatternMatch p path = false := by
  simp [globPatternMatch, h]

lemma shouldProcessFile_inc_insert {p : List Char} (h : patternNew p = none)
    (path : List Char) (incs1 incs2 excs : List (List Char)) :
    shouldProcessFile path (incs1 ++ p :: incs2) excs =
      shouldProcessFile path (incs1 ++ incs2) excs := by
  simp [shouldProcessFile, List.any_append, List.any_cons, globPatternMatch_invalid h]

lemma shouldProcessFile_exc_insert {p : List Char} (h : patternNew p = none)
    (path : List Char) (incs excs1 excs2 : List (List Char)) :
    shouldProcessFile path incs (excs1 ++ p :: excs2) =
      shouldProcessFile path incs (excs1 ++ excs2) := by
  simp [shouldProcessFile, List.any_append, List.any_cons, globPatternMatch_invalid h]

lemma processItems_congr {i1 e1 i2 e2 : List (List Char)}
    (h : ∀ path, shouldProcessFile path i1 e1 = shouldProcessFile path i2 e2) :
    ∀ items, processItems i1 e1 items = processItems i2 e2 items := by
  intro items
  induction items with
  | nil => rfl
  | cons it rest ih =>
    cases it with
    | err => rfl
    | entry e =>
      simp only [processItems, h e.path, ih]

/-- C1: in glob mode the selection predicate holds iff the path matches at
least one include pattern and no exclude pattern; in particular a matching
exclude pattern forces rejection even when an include pattern matches. -/
theorem C1_glob_selection (path : List Char) (includePats excludePats : List (List Char)) :
    (shouldProcessFile path includePats excludePats = true ↔
      ((∃ p ∈ includePats, globPatternMatch p path = true) ∧
        ∀ p ∈ excludePats, globPatternMatch p path = false)) ∧
    (∀ p ∈ excludePats, globPatternMatch p path = true →
      shouldProcessFile path includePats excludePats = false) := by
  constructor
  · simp [shouldProcessFile, List.any_eq_true]
  · intro p hp hmatch
    have hexc : excludePats.any (fun q => globPatternMatch q path) = true :=
      List.any_eq_true.mpr ⟨p, hp, hmatch⟩
    simp [shouldProcessFile, hexc]

/-- C1 witness: the path `a.rs` matches the include pattern `*.rs` and the
exclude pattern `a.*`, so it is rejected. -/
theorem C1_glob_selection_witness :
    shouldProcessFile "a.rs".toList ["*.rs".toList] ["a.*".toList] = false :=
  (C1_glob_selection "a.rs".toList ["*.rs".toList] ["a.*".toList]).2 "a.*".toList
    (by decide) (by decide)

/-- C10: an include or exclude entry whose glob syntax is invalid never
matches any path and leaves the selection decision unchanged wherever it is
inserted; the selection predicate stays a total boolean function and no
error is raised. -/
theorem C10_invalid_pattern_inert (p : List Char) (h : patternNew p = none) :
    (∀ path, globPatternMatch p path = false) ∧
    (∀ path incs1 incs2 excs,
      shouldProcessFile path (incs1 ++ p :: incs2) excs =
        shouldProcessFile path (incs1 ++ incs2) excs) ∧
    (∀ path incs excs1 excs2,
      shouldProcessFile path incs (excs1 ++ p :: excs2) =
        shouldProcessFile path incs (excs1 ++ excs2)) :=
  ⟨globPatternMatch_invalid h,
   fun path incs1 incs2 excs => shouldProcessFile_inc_insert h path incs1 incs2 excs,
   fun path incs excs1 excs2 => shouldProcessFile_exc_insert h path incs excs1 excs2⟩

/-- C10 witness: `***` is rejected by `Pattern::new`; as an include entry it
neither matches `a.rs` nor changes the selection outcome. -/
theorem C10_invalid_pattern_inert_witness :
    globPatternMatch "***".toList "a.rs".toList = false ∧
    shouldProcessFile "a.rs".toList (["*.rs".toList] ++ "***".toList :: []) [] =
      shouldProcessFile "a.rs".toList (["*.rs".toList] ++ []) [] :=
  ⟨(C10_invalid_pattern_inert "***".toList (by decide)).1 "a.rs".toList,
   (C10_invalid_pattern_inert "***".toList (by decide)).2.1 "a.rs".toList
     ["*.rs".toList] [] []⟩

/-- C5 counterexample: the include list contains the malformed pattern `[`
(rejected by `Pattern::new`), yet the run completes with no error at all —
it does not fail with a configuration error. -/
theorem C5_malformed_pattern_counterexample :
    patternNew "[".toList = none ∧
    processLocalFolder true
      (some [WalkItem.entry ⟨"a.rs".toList, true, some "x".toList, true⟩])
      ["*.rs".toList, "[".toList] [] =
      (some "*** a.rs\nx\n".toList, ["a.rs".toList], none) := by
  decide

/-- C5 amended: a malformed include or exclude pattern never makes the run
fail; the run behaves exactly as if the malformed pattern were absent. -/
theorem C5_malformed_pattern_amended (p : List Char) (h : patternNew p = none) :
    (∀ createOk root incs1 incs2 excs,
      processLocalFolder createOk root (incs1 ++ p :: incs2) excs =
        processLocalFolder createOk root (incs1 ++ incs2) excs) ∧
    (∀ createOk root incs excs1 excs2,
      processLocalFolder createOk root incs (excs1 ++ p :: excs2) =
        processLocalFolder createOk root incs (excs1 ++ excs2)) := by
  constructor
  · intro createOk root incs1 incs2 excs
    unfold processLocalFolder
    rw [processItems_congr (fun path => shouldProcessFile_inc_insert h path incs1 incs2 excs)]
  · intro createOk root incs excs1 excs2
    unfold processLocalFolder
    rw [processItems_congr (fun path => shouldProcessFile_exc_insert h path incs excs1 excs2)]

/-- C5 amended witness: inserting the malformed `[` in front of the include
list leaves a concrete run unchanged. -/
theorem C5_malformed_pattern_amended_witness :
    processLocalFolder true
      (some [WalkItem.entry ⟨"a.rs".toList, true, some "x".toList, true⟩])
      ([] ++ "[".toList :: ["*.rs".toList]) [] =
      processLocalFolder true
        (some [WalkItem.entry ⟨"a.rs".toList, true, some "x".toList, true⟩])
        ([] ++ ["*.rs".toList]) [] :=
  (C5_malformed_pattern_amended "[".toList (by decide)).1 true
    (some [WalkItem.entry ⟨"a.rs".toList, true, some "x".toList, true⟩]) [] ["*.rs".toList] []

/-- C9: an input is treated as a remote repository (a clone is attempted)
iff it starts with the exact prefix `https://github.com`; any other input
is handed to the local-folder processor. -/
theorem C9_remote_dispatch (args : Args) (env : RemoteEnv) (createOk : Bool)
    (root : Option (List WalkItem)) (h : env.tempDirOk = true) :
    ((runMain args env createOk root).1.head? = some (Event.cliClone 1) ↔
      "https://github.com".toList.isPrefixOf args.input = true) ∧
    ("https://github.com".toList.isPrefixOf args.input = false →
      runMain args env createOk root =
        ([], processLocalFolder createOk root (args.includePats.getD defaultInclude)
          (args.excludePats.getD []))) := by
  obtain ⟨tempOk, cliResult, lib2Ok⟩ := env
  simp only at h
  subst h
  constructor
  · rcases cliResult with _ | (_ | _) <;> cases lib2Ok <;>
      simp [runMain, isGithubUrl, processGithubRepo] <;> split <;> simp_all
  · intro hb
    have hp : isGithubUrl args.input = false := hb
    simp [runMain, hp]

/-- C9 witness: an ssh-style URL and a plain `http://` GitHub URL are both
treated as local paths (no clone attempted), while an `https://github.com`
URL is treated as remote. -/
theorem C9_remote_dispatch_witness :
    (runMain ⟨"git@github.com:u/r".toList, "o".toList, none, none⟩ ⟨true, some true, true⟩
        true (some [])).1.head? ≠ some (Event.cliClone 1) ∧
    (runMain ⟨"http://github.com/u/r".toList, "o".toList, none, none⟩ ⟨true, some true, true⟩
        true (some [])).1.head? ≠ some (Event.cliClone 1) ∧
    (runMain ⟨"https://github.com/u/r".toList, "o".toList, none, none⟩ ⟨true, some true, true⟩
        true (some [])).1.head? = some (Event.cliClone 1) := by
  refine ⟨fun hc => ?_, fun hc => ?_, ?_⟩
  · exact absurd ((C9_remote_dispatch _ ⟨true, some true, true⟩ true (some []) rfl).1.mp hc)
      (by decide)
  · exact absurd ((C9_remote_dispatch _ ⟨true, some true, true⟩ true (some []) rfl).1.mp hc)
      (by decide)
  · exact (C9_remote_dispatch _ ⟨true, some true, true⟩ true (some []) rfl).1.mpr (by decide)

/-- C7: when the input is not a GitHub URL and the local root does not
exist or is unreadable, the run fails with the walker's error — classified
by the specification as an acquisition error — before any file is
processed. -/
theorem C7_missing_root (args : Args) (env : RemoteEnv)
    (h : isGithubUrl args.input = false) :
    runMain args env true none = ([], (some [], [], some RunError.walkFailure)) ∧
    specClass RunError.walkFailure = SpecErrorClass.acquisition := by
  constructor
  · simp [runMain, h, processLocalFolder, processItems, walkItems]
  · rfl

/-- C7 witness: a concrete nonexistent local path fails with the walker
error and an empty processed-file list. -/
theorem C7_missing_root_witness :
    runMain ⟨"/no/such/dir".toList, "out.txt".toList, none, none⟩ ⟨true, none, false⟩
        true none =
      ([], (some [], [], some RunError.walkFailure)) :=
  (C7_missing_root ⟨"/no/such/dir".toList, "out.txt".toList, none, none⟩
    ⟨true, none, false⟩ (by decide)).1

/-- C3: the acquirer first attempts a depth-1 clone through the git
subprocess; the in-process depth-1 clone is attempted exactly once, and
only when the subprocess was unavailable or exited non-zero; when both
strategies fail the run stops with an acquisition-class error and the
output file has not been created; the output file exists only when one
acquisition strategy succeeded. -/
theorem C3_clone_fallback (env : RemoteEnv) (createOk : Bool) (root : Option (List WalkItem))
    (includePats excludePats : List (List Char)) :
    (env.tempDirOk = true →
      (processGithubRepo env createOk root includePats excludePats).1.head? =
        some (Event.cliClone 1)) ∧
    (env.tempDirOk = true →
      (processGithubRepo env createOk root includePats excludePats).1.count (Event.lib2Clone 1) =
        if env.cliResult = some true then 0 else 1) ∧
    (env.tempDirOk = true → env.cliResult ≠ some true → env.lib2Ok = false →
      processGithubRepo env createOk root includePats excludePats =
        ([Event.cliClone 1, Event.lib2Clone 1], (none, [], some RunError.cloneFailure)) ∧
      specClass RunError.cloneFailure = SpecErrorClass.acquisition) ∧
    ((processGithubRepo env createOk root includePats excludePats).2.1 ≠ none →
      env.tempDirOk = true ∧ (env.cliResult = some true ∨ env.lib2Ok = true)) := by
  obtain ⟨tempOk, cliResult, lib2Ok⟩ := env
  cases tempOk <;> cases lib2Ok <;> rcases cliResult with _ | (_ | _) <;>
    simp [processGithubRepo, processLocalFolder] <;> decide

/-- Token list of a pattern that is a plain character literal. -/
def litTokens (cs : List Char) : List PatternToken :=
  cs.map PatternToken.char

lemma matchesFrom_lit : ∀ (cs : List Char) (fsep : Bool) (file : List Char),
    matchesFrom defaultMatchOptions (litTokens cs) fsep file =
      (if file = cs then MatchResult.entireMatches
       else if file <+: cs then MatchResult.entireDoesntMatch
       else MatchResult.subDoesntMatch)
  | [], _, file => by
    cases file with
    | nil => rfl
    | cons c rest =>
      rw [if_neg (by simp), if_neg (by simp [List.prefix_nil])]
      rfl
  | c2 :: cs, fsep, file => by
    cases file with
    | nil =>
      rw [if_neg (by simp), if_pos List.nil_prefix]
      rfl
    | cons c rest =>
      have hstep : matchesFrom defaultMatchOptions (litTokens (c2 :: cs)) fsep (c :: rest) =
          (if c = c2 then matchesFrom defaultMatchOptions (litTokens cs) (c == '/') rest
           else MatchResult.subDoesntMatch) := by
        simp [litTokens, matchesFrom, charsEq, defaultMatchOptions]
      rw [hstep]
      by_cases hcc : c = c2
      · subst hcc
        rw [if_pos rfl, matchesFrom_lit cs (c == '/') rest]
        by_cases h1 : rest = cs
        · simp [h1]
        · rw [if_neg h1]
          by_cases h2 : rest <+: cs
          · rw [if_pos h2, if_neg (show ¬(c :: rest = c :: cs) by simp [h1]),
              if_pos (List.cons_prefix_cons.mpr ⟨rfl, h2⟩)]
          · rw [if_neg h2, if_neg (show ¬(c :: rest = c :: cs) by simp [h1]),
              if_neg (show ¬(c :: rest <+: c :: cs) from
                fun hx => h2 (List.cons_prefix_cons.mp hx).2)]
      · rw [if_neg hcc, if_neg (show ¬(c :: rest = c2 :: cs) by simp [hcc]),
          if_neg (show ¬(c :: rest <+: c2 :: cs) from
            fun hx => hcc (List.cons_prefix_cons.mp hx).1)]

lemma star_lit_matches : ∀ (file cs : List Char) (fsep : Bool),
    (matchesFrom defaultMatchOptions (PatternToken.anySequence :: litTokens cs) fsep file =
      MatchResult.entireMatches) ↔ cs <:+ file := by
  intro file
  induction file with
  | nil =>
    intro cs fsep
    rcases cs with _ | ⟨c2, cs'⟩
    · cases fsep <;> decide
    · have hunfold : matchesFrom defaultMatchOptions
          (PatternToken.anySequence :: litTokens (c2 :: cs')) fsep [] =
          MatchResult.entireDoesntMatch := by
        rw [show matchesFrom defaultMatchOptions
            (PatternToken.anySequence :: litTokens (c2 :: cs')) fsep [] =
            (match matchesFrom defaultMatchOptions (litTokens (c2 :: cs')) fsep [] with
             | MatchResult.subDoesntMatch =>
               seqLoop defaultMatchOptions
                 (fun fs f => matchesFrom defaultMatchOptions (litTokens (c2 :: cs')) fs f)
                 false fsep []
             | m => m) from rfl]
        rw [matchesFrom_lit (c2 :: cs') fsep []]
        rw [if_neg (by simp), if_pos List.nil_prefix]
      rw [hunfold]
      simp
  | cons c rest ih =>
    intro cs fsep
    rw [show matchesFrom defaultMatchOptions
        (PatternToken.anySequence :: litTokens cs) fsep (c :: rest) =
        (match matchesFrom defaultMatchOptions (litTokens cs) fsep (c :: rest) with
         | MatchResult.subDoesntMatch =>
           seqLoop defaultMatchOptions
             (fun fs f => matchesFrom defaultMatchOptions (litTokens cs) fs f)
             false fsep (c :: rest)
         | m => m) from rfl]
    rw [matchesFrom_lit cs fsep (c :: rest)]
    by_cases heq : c :: rest = cs
    · rw [if_pos heq]
      have hsuf : cs <:+ c :: rest := by
        rw [← heq]
      simp [hsuf]
    · rw [if_neg heq]
      by_cases hpre : c :: rest <+: cs
      · rw [if_pos hpre]
        have hlt : (c :: rest).length < cs.length := by
          rcases Nat.lt_or_ge (c :: rest).length cs.length with h | h
          · exact h
          · exact absurd (hpre.eq_of_length (Nat.le_antisymm hpre.length_le h)) heq
        have hnos : ¬(cs <:+ c :: rest) := fun hsuf =>
          absurd hsuf.length_le (Nat.not_le_of_lt hlt)
        simp [hnos]
      · rw [if_neg hpre]
        have hstep : seqLoop defaultMatchOptions
            (fun fs f => matchesFrom defaultMatchOptions (litTokens cs) fs f)
            false fsep (c :: rest) =
            matchesFrom defaultMatchOptions
              (PatternToken.anySequence :: litTokens cs) (c == '/') rest := by
          simp [seqLoop, matchesFrom, defaultMatchOptions]
        rw [show (match MatchResult.subDoesntMatch with
             | MatchResult.subDoesntMatch =>
               seqLoop defaultMatchOptions
                 (fun fs f => matchesFrom defaultMatchOptions (litTokens cs) fs f)
                 false fsep (c :: rest)
             | m => m) =
            seqLoop defaultMatchOptions
              (fun fs f => matchesFrom defaultMatchOptions (litTokens cs) fs f)
              false fsep (c :: rest) from rfl]
        rw [hstep, ih cs (c == '/'), List.suffix_cons_iff]
        constructor
        · exact fun h => Or.inr h
        · rintro (h | h)
          · exact absurd h.symm heq
          · exact h

lemma patternMatches_eq_true_iff (tokens : List PatternToken) (file : List Char) :
    patternMatches tokens file = true ↔
      matchesFrom defaultMatchOptions tokens true file = MatchResult.entireMatches := by
  unfold patternMatches
  cases h : matchesFrom defaultMatchOptions tokens true file <;> simp [h]

lemma globPatternMatch_star_lit (p cs : List Char)
    (h : patternNew p = some (PatternToken.anySequence :: litTokens cs)) (path : List Char) :
    globPatternMatch p path = true ↔ cs <:+ path := by
  rw [globPatternMatch, h]
  simp only [Option.map_some', Option.getD_some]
  rw [patternMatches_eq_true_iff, star_lit_matches path cs true]

/-- The suffixes that the default include patterns test for. -/
def defaultSuffixes : List (List Char) :=
  [".toml".toList, ".md".toList, ".py".toList, ".rs".toList, ".cpp".toList, ".h".toList,
   ".hpp".toList, ".c".toList, ".rst".toList, ".txt".toList, ".cuh".toList, ".cu".toList]

/-- C4 counterexample: the program has no extension-allowlist mode.  Its
only selection configuration is the include/exclude pattern lists of
`should_process_file`; feeding the configured set of allowed extensions
(here `{rs}`) through that interface does not produce extension-allowlist
semantics: `main.rs` has extension `rs` yet is rejected. -/
theorem C4_extension_mode_counterexample :
    extensionAllowlistSelect ["rs".toList] "main.rs".toList = true ∧
    shouldProcessFile "main.rs".toList ["rs".toList] [] = false := by
  decide

/-- C4 amended: selection is always glob-based; the nearest analogue of an
extension allowlist is the default include configuration, whose twelve
`*.ext` patterns make a case-sensitive suffix allowlist: under the default
includes and empty excludes a path is selected iff it ends with one of the
twelve default suffixes, and a path containing no dot is never selected. -/
theorem C4_extension_mode_amended (path : List Char) :
    (shouldProcessFile path defaultInclude [] = true ↔
      ∃ s ∈ defaultSuffixes, s <:+ path) ∧
    ('.' ∉ path → shouldProcessFile path defaultInclude [] = false) := by
  have e01 := globPatternMatch_star_lit "*.toml".toList ".toml".toList (by decide) path
  have e02 := globPatternMatch_star_lit "*.md".toList ".md".toList (by decide) path
  have e03 := globPatternMatch_star_lit "*.py".toList ".py".toList (by decide) path
  have e04 := globPatternMatch_star_lit "*.rs".toList ".rs".toList (by decide) path
  have e05 := globPatternMatch_star_lit "*.cpp".toList ".cpp".toList (by decide) path
  have e06 := globPatternMatch_star_lit "*.h".toList ".h".toList (by decide) path
  have e07 := globPatternMatch_star_lit "*.hpp".toList ".hpp".toList (by decide) path
  have e08 := globPatternMatch_star_lit "*.c".toList ".c".toList (by decide) path
  have e09 := globPatternMatch_star_lit "*.rst".toList ".rst".toList (by decide) path
  have e10 := globPatternMatch_star_lit "*.txt".toList ".txt".toList (by decide) path
  have e11 := globPatternMatch_star_lit "*.cuh".toList ".cuh".toList (by decide) path
  have e12 := globPatternMatch_star_lit "*.cu".toList ".cu".toList (by decide) path
  have hiff : shouldProcessFile path defaultInclude [] = true ↔
      ∃ s ∈ defaultSuffixes, s <:+ path := by
    simp only [shouldProcessFile, defaultInclude, defaultSuffixes, List.any_nil,
      Bool.not_false, Bool.and_true, List.any_cons, Bool.or_eq_true,
      e01, e02, e03, e04, e05, e06, e07, e08, e09, e10, e11, e12,
      List.mem_cons, List.not_mem_nil, or_false, exists_eq_or_imp, exists_eq_left,
      exists_false, Bool.false_eq_true]
  refine ⟨hiff, fun hdot => ?_⟩
  rw [← Bool.not_eq_true, hiff]
  rintro ⟨s, hs, hsuf⟩
  have hdotmem : '.' ∈ s := by fin_cases hs <;> decide
  exact hdot (hsuf.sublist.subset hdotmem)

/-- C4 amended witness: `src/main.rs` is selected by the default includes,
while the extensionless `Makefile` is not. -/
theorem C4_extension_mode_amended_witness :
    shouldProcessFile "src/main.rs".toList defaultInclude [] = true ∧
    shouldProcessFile "Makefile".toList defaultInclude [] = false :=
  ⟨(C4_extension_mode_amended "src/main.rs".toList).1.mpr (by decide),
   (C4_extension_mode_amended "Makefile".toList).2 (by decide)⟩

lemma splitNewline_ne_nil : ∀ c : List Char, splitNewline c ≠ []
  | [] => by simp [splitNewline]
  | x :: rest => by
    simp only [splitNewline]
    split
    · simp
    · split <;> simp

lemma splitNewline_no_newline : ∀ c : List Char, ∀ l ∈ splitNewline c, '\n' ∉ l := by
  intro c
  induction c with
  | nil =>
    intro l hl
    simp [splitNewline] at hl
    simp [hl]
  | cons x rest ih =>
    intro l hl
    simp only [splitNewline] at hl
    by_cases hx : x = '\n'
    · rw [if_pos (by simp [hx])] at hl
      rcases List.mem_cons.mp hl with rfl | hl2
      · simp
      · exact ih l hl2
    · rw [if_neg (by simp [hx])] at hl
      rcases hsp : splitNewline rest with _ | ⟨l0, ls⟩
      · exact absurd hsp (splitNewline_ne_nil rest)
      · rw [hsp] at hl
        rcases List.mem_cons.mp hl with rfl | hl2
        · intro hmem
          rcases List.mem_cons.mp hmem with h1 | h2
          · exact hx h1.symm
          · exact ih l0 (by rw [hsp]; exact List.mem_cons_self l0 ls) h2
        · exact ih l (by rw [hsp]; exact List.mem_cons_of_mem l0 hl2)

lemma splitNewline_eq_single : ∀ l : List Char, '\n' ∉ l → splitNewline l = [l]
  | [], _ => rfl
  | c :: rest, h => by
    have hc : ¬(c = '\n') := fun hh => h (by simp [hh])
    have hrest : '\n' ∉ rest := fun hh => h (List.mem_cons_of_mem c hh)
    simp only [splitNewline]
    rw [if_neg (by simp [hc]), splitNewline_eq_single rest hrest]

lemma splitNewline_append : ∀ l : List Char, '\n' ∉ l → ∀ m : List Char,
    splitNewline (l ++ m) = (l ++ (splitNewline m).headD []) :: (splitNewline m).tail
  | [], _, m => by
    rcases h : splitNewline m with _ | ⟨l0, ls⟩
    · exact absurd h (splitNewline_ne_nil m)
    · simp [h]
  | c :: rest, h, m => by
    have hc : ¬(c = '\n') := fun hh => h (by simp [hh])
    have hrest : '\n' ∉ rest := fun hh => h (List.mem_cons_of_mem c hh)
    simp only [List.cons_append, splitNewline]
    rw [if_neg (by simp [hc])]
    simp only [List.append_eq]
    rw [splitNewline_append rest hrest m]

lemma splitNewline_joinLines : ∀ ls : List (List Char), ls ≠ [] →
    (∀ l ∈ ls, '\n' ∉ l) → splitNewline (joinLines ls) = ls
  | [], h, _ => absurd rfl h
  | [l], _, hno => by
    simp only [joinLines]
    exact splitNewline_eq_single l (hno l (by simp))
  | l :: l2 :: rest, _, hno => by
    have h1 : '\n' ∉ l := hno l (by simp)
    rw [show joinLines (l :: l2 :: rest) = l ++ '\n' :: joinLines (l2 :: rest) from rfl]
    rw [splitNewline_append l h1 ('\n' :: joinLines (l2 :: rest))]
    have hsp : splitNewline ('\n' :: joinLines (l2 :: rest)) =
        [] :: splitNewline (joinLines (l2 :: rest)) := by
      simp [splitNewline]
    rw [hsp, splitNewline_joinLines (l2 :: rest) (by simp)
      (fun x hx => hno x (List.mem_cons_of_mem l hx))]
    simp

lemma dropWhile_idem (p : Char → Bool) :
    ∀ l : List Char, (l.dropWhile p).dropWhile p = l.dropWhile p
  | [] => rfl
  | c :: rest => by
    by_cases h : p c = true
    · simp [List.dropWhile_cons, h, dropWhile_idem p rest]
    · simp [List.dropWhile_cons, h]

lemma trimEnd_idem (l : List Char) : trimEnd (trimEnd l) = trimEnd l := by
  simp [trimEnd, dropWhile_idem]

lemma trimEnd_no_newline {l : List Char} (h : '\n' ∉ l) : '\n' ∉ trimEnd l := by
  intro hmem
  rw [trimEnd, List.mem_reverse] at hmem
  have hrev : '\n' ∈ l.reverse := (List.dropWhile_sublist rustIsWhitespace).subset hmem
  exact h (List.mem_reverse.mp hrev)

lemma map_eq_self_of_forall {α : Type} (f : α → α) :
    ∀ l : List α, (∀ x ∈ l, f x = x) → l.map f = l
  | [], _ => rfl
  | x :: rest, h => by
    rw [List.map_cons, h x (by simp),
      map_eq_self_of_forall f rest (fun y hy => h y (List.mem_cons_of_mem x hy))]

/-- C6: the normalizing transformation of `process_file` — right-trim each
line, drop lines empty after trimming, rejoin with single newlines — is
idempotent: applied to an already-normalized body it returns it
unchanged. -/
theorem C6_normalize_idempotent (contents : List Char) :
    normalizeContent (normalizeContent contents) = normalizeContent contents := by
  unfold normalizeContent
  set ls := ((splitNewline contents).map trimEnd).filter (fun s => !s.isEmpty) with hls
  have hmem : ∀ l ∈ ls, trimEnd l = l ∧ '\n' ∉ l ∧ (!l.isEmpty) = true := by
    intro l hl
    rw [hls] at hl
    have hfilter := List.of_mem_filter hl
    have hmap := List.mem_of_mem_filter hl
    obtain ⟨l0, hl0, rfl⟩ := List.mem_map.mp hmap
    exact ⟨trimEnd_idem l0,
      trimEnd_no_newline (splitNewline_no_newline contents l0 hl0), hfilter⟩
  by_cases hempty : ls = []
  · rw [hempty]
    decide
  · rw [splitNewline_joinLines ls hempty (fun l hl => (hmem l hl).2.1),
      map_eq_self_of_forall trimEnd ls (fun l hl => (hmem l hl).1),
      List.filter_eq_self.mpr (fun l hl => (hmem l hl).2.2)]

/-- The entries a traversal selects: regular files accepted by
`should_process_file`. -/
def selectedList (includePats excludePats : List (List Char)) (entries : List WalkEntry) :
    List WalkEntry :=
  entries.filter fun e => e.isFile && shouldProcessFile e.path includePats excludePats

/-- The bytes a traversal writes: one block plus trailing newline per
selected file, in traversal order. -/
def selectedBlocks (includePats excludePats : List (List Char)) (entries : List WalkEntry) :
    List Char :=
  ((selectedList includePats excludePats entries).map
    (fun e => processFileContent e.path (e.content.getD []) ++ ['\n'])).flatten

/-- The paths printed by a traversal, in traversal order. -/
def selectedPaths (includePats excludePats : List (List Char)) (entries : List WalkEntry) :
    List (List Char) :=
  (selectedList includePats excludePats entries).map fun e => e.path

lemma processItems_good_prefix (includePats excludePats : List (List Char))
    (pre : List WalkEntry) (hgood : ∀ e ∈ pre, e.content ≠ none ∧ e.writeOk = true)
    (rest : List WalkItem) :
    processItems includePats excludePats (pre.map WalkItem.entry ++ rest) =
      (selectedBlocks includePats excludePats pre ++
        (processItems includePats excludePats rest).1,
       selectedPaths includePats excludePats pre ++
        (processItems includePats excludePats rest).2.1,
       (processItems includePats excludePats rest).2.2) := by
  induction pre with
  | nil => simp [selectedBlocks, selectedPaths, selectedList]
  | cons e pre ih =>
    obtain ⟨hc, hw⟩ := hgood e (List.mem_cons_self e pre)
    have hgood' : ∀ x ∈ pre, x.content ≠ none ∧ x.writeOk = true := fun x hx =>
      hgood x (List.mem_cons_of_mem e hx)
    rcases hcc : e.content with _ | c
    · exact absurd hcc hc
    · by_cases hsel : (e.isFile && shouldProcessFile e.path includePats excludePats) = true
      · simp [processItems, hsel, hcc, hw, ih hgood', selectedBlocks, selectedPaths,
          selectedList]
      · simp [processItems, hsel, ih hgood', selectedBlocks, selectedPaths, selectedList]

/-- C2: on an error-free traversal the output is exactly one block per
selected file, in order; each block is the header line `*** <path>`
followed by the normalized body (lines right-trimmed, empty lines dropped,
rejoined with single newlines); a file whose lines are all blank still has
its header, with an empty body. -/
theorem C2_block_format :
    (∀ includePats excludePats (entries : List WalkEntry),
      (∀ e ∈ entries, e.content ≠ none ∧ e.writeOk = true) →
      processItems includePats excludePats (entries.map WalkItem.entry) =
        (selectedBlocks includePats excludePats entries,
         selectedPaths includePats excludePats entries, none)) ∧
    (∀ path contents, processFileContent path contents =
      "*** ".toList ++ path ++ '\n' :: normalizeContent contents) ∧
    (∀ path contents, (∀ l ∈ splitNewline contents, trimEnd l = []) →
      processFileContent path contents = "*** ".toList ++ path ++ ['\n']) := by
  refine ⟨fun includePats excludePats entries hgood => ?_, fun path contents => rfl,
    fun path contents h => ?_⟩
  · have := processItems_good_prefix includePats excludePats entries hgood []
    simpa [processItems] using this
  · have hnil : ((splitNewline contents).map trimEnd).filter (fun s => !s.isEmpty) = [] := by
      rw [List.filter_eq_nil_iff]
      intro a ha
      obtain ⟨l, hl, rfl⟩ := List.mem_map.mp ha
      simp [h l hl]
    simp [processFileContent, hnil, joinLines]

/-- C2 witness: the specification's three-file scenario produces exactly
the two expected blocks, in order, with `a.py` normalized to `x\ny`. -/
theorem C2_block_format_witness :
    processItems ["*.py".toList] []
      (([⟨"a.py".toList, true, some "x\n\n  \ny".toList, true⟩,
         ⟨"b.py".toList, true, some "z".toList, true⟩,
         ⟨"c.md".toList, true, some "ignored".toList, true⟩] : List WalkEntry).map
        WalkItem.entry) =
      ("*** a.py\nx\ny\n*** b.py\nz\n".toList, ["a.py".toList, "b.py".toList], none) :=
  (C2_block_format.1 ["*.py".toList] [] _ (by decide)).trans (by decide)

/-- C8: an error opening/reading a selected file, or writing its block,
stops the run at that file: the error is reported, no later item of the
traversal is examined (the result does not depend on `post`), and the
output file keeps exactly the blocks of the earlier files — truncated, not
rolled back. -/
theorem C8_error_stops_run (includePats excludePats : List (List Char))
    (pre : List WalkEntry) (e : WalkEntry) (post : List WalkItem)
    (hgood : ∀ x ∈ pre, x.content ≠ none ∧ x.writeOk = true)
    (hfile : e.isFile = true)
    (hsel : shouldProcessFile e.path includePats excludePats = true) :
    (e.content = none →
      processLocalFolder true (some (pre.map WalkItem.entry ++ WalkItem.entry e :: post))
          includePats excludePats =
        (some (selectedBlocks includePats excludePats pre),
         selectedPaths includePats excludePats pre,
         some (RunError.readFailure e.path))) ∧
    (e.writeOk = false → ∀ c, e.content = some c →
      processLocalFolder true (some (pre.map WalkItem.entry ++ WalkItem.entry e :: post))
          includePats excludePats =
        (some (selectedBlocks includePats excludePats pre),
         selectedPaths includePats excludePats pre ++ [e.path],
         some (RunError.writeFailure e.path))) := by
  have hpre := processItems_good_prefix includePats excludePats pre hgood
    (WalkItem.entry e :: post)
  constructor
  · intro hc
    simp [processLocalFolder, walkItems, hpre, processItems, hfile, hsel, hc]
  · intro hw c hc
    simp [processLocalFolder, walkItems, hpre, processItems, hfile, hsel, hc, hw]

/-- C8 witness: `b.py` fails to read; the run stops there, `a.py`'s block
remains in the output, and the later `c.py` is never processed. -/
theorem C8_error_stops_run_witness :
    processLocalFolder true
      (some (([⟨"a.py".toList, true, some "x".toList, true⟩] : List WalkEntry).map
          WalkItem.entry ++
        WalkItem.entry ⟨"b.py".toList, true, none, true⟩ ::
          [WalkItem.entry ⟨"c.py".toList, true, some "y".toList, true⟩]))
      ["*.py".toList] [] =
      (some "*** a.py\nx\n".toList, ["a.py".toList],
       some (RunError.readFailure "b.py".toList)) :=
  ((C8_error_stops_run ["*.py".toList] [] _ _ _ (by decide) (by decide) (by decide)).1
    rfl).trans (by decide)

/-- C3 witness: subprocess exits non-zero and the in-process clone fails —
the run ends with the clone error, no output file, nothing processed, and
the trace shows the one depth-1 subprocess attempt followed by the one
depth-1 fallback attempt. -/
theorem C3_clone_fallback_witness :
    processGithubRepo ⟨true, some false, false⟩ true (some []) [] [] =
      ([Event.cliClone 1, Event.lib2Clone 1], (none, [], some RunError.cloneFailure)) :=
  ((C3_clone_fallback ⟨true, some false, false⟩ true (some []) [] []).2.2.1 rfl
    (by decide) rfl).1
